import Mathlib

/-!
A verification development for the DPAM VIF generator
(`dpamvifgenerator/script.py`).  The core of the program is pure tree
manipulation on parsed XML element trees:

* `DPAMVIFGenerator.elements_equal`    — structural equality of elements,
* `DPAMVIFGenerator.contains_contents` — the containment test used to decide
  whether an existing `opt:OptionalContent` block already carries the
  incoming settings,
* `DPAMVIFGenerator.get_port_settings_from_vif` — builds the port-label →
  optional-content index from the settings document,
* `DPAMVIFGenerator.generate_dpam_vif` — walks every `vif:Component` of the
  VIF tree and inserts / replaces / keeps its optional content.

This file embeds those functions over an explicit element type `XElem`
mirroring `xml.etree.ElementTree.Element`: a tag (either a qualified name
string or the comment marker), an attribute list, optional `text` and
`tail` strings, an ordered child list, and an object identity `eid`
(Python compares elements with `is`/default `==`, i.e. by object identity;
`eid` stands for that identity, and a parsed document carries pairwise
distinct `eid`s).  Machine-level concerns (file I/O, parsing, progress
bars, logging) are out of scope, exactly as in the program's own design.
-/

namespace DPAMVIF

/-- An element tag: either a namespace-qualified name in Clark notation
(as ElementTree stores it, `\x7buri\x7dlocal`) or the `ET.Comment` marker that
comment nodes carry in place of a string tag. -/
inductive Tag where
  | str (name : String)
  | comment
deriving DecidableEq

/-- An ElementTree element: tag, attribute list (insertion order), `text`,
`tail`, ordered children (comments included), and the object identity
`eid`. -/
inductive XElem where
  | mk (tag : Tag) (attrib : List (String × String)) (text : Option String)
       (tail : Option String) (children : List XElem) (eid : Nat)

namespace XElem

def tag : XElem → Tag
  | .mk t _ _ _ _ _ => t

def attrib : XElem → List (String × String)
  | .mk _ a _ _ _ _ => a

def text : XElem → Option String
  | .mk _ _ tx _ _ _ => tx

def tail : XElem → Option String
  | .mk _ _ _ tl _ _ => tl

def children : XElem → List XElem
  | .mk _ _ _ _ cs _ => cs

def eid : XElem → Nat
  | .mk _ _ _ _ _ i => i

end XElem

mutual
/-- Structural (syntactic) equality of embedded elements, used only to give
`XElem` a decidable equality; the program's own comparison is
`elements_equal` below. -/
def beqEl : XElem → XElem → Bool
  | .mk t a tx tl cs i, .mk t' a' tx' tl' cs' i' =>
    t == t' && a == a' && tx == tx' && tl == tl' && beqChildren cs cs' && i == i'

def beqChildren : List XElem → List XElem → Bool
  | [], [] => true
  | c :: cs, d :: ds => beqEl c d && beqChildren cs ds
  | _, _ => false
end

mutual
theorem beqEl_refl : ∀ a : XElem, beqEl a a = true
  | .mk t a tx tl cs i => by
    simp only [beqEl, Bool.and_eq_true, beq_self_eq_true, true_and, and_true]
    exact beqChildren_refl cs

theorem beqChildren_refl : ∀ l : List XElem, beqChildren l l = true
  | [] => rfl
  | c :: cs => by
    simp only [beqChildren, Bool.and_eq_true]
    exact ⟨beqEl_refl c, beqChildren_refl cs⟩
end

mutual
theorem eq_of_beqEl : ∀ {a b : XElem}, beqEl a b = true → a = b
  | .mk t a tx tl cs i, .mk t' a' tx' tl' cs' i' => by
    simp only [beqEl, Bool.and_eq_true, beq_iff_eq, and_imp]
    intro h1 h2 h3 h4 h5 h6
    subst h1; subst h2; subst h3; subst h4; subst h6
    exact congrArg (fun l => XElem.mk t a tx tl l i) (eq_of_beqChildren h5)

theorem eq_of_beqChildren : ∀ {l l' : List XElem}, beqChildren l l' = true → l = l'
  | [], [], _ => rfl
  | c :: cs, d :: ds, h => by
    simp only [beqChildren, Bool.and_eq_true] at h
    rw [eq_of_beqEl h.1, eq_of_beqChildren h.2]
  | [], _ :: _, h => by simp [beqChildren] at h
  | _ :: _, [], h => by simp [beqChildren] at h
end

instance : DecidableEq XElem := fun a b =>
  if h : beqEl a b = true then .isTrue (eq_of_beqEl h)
  else .isFalse (fun he => h (he ▸ beqEl_refl a))

/-! ### Namespace-qualified tags

`DPAMVIFGenerator.get_prefix_map` fixes three namespaces; the program looks
elements up with the qualified names below (ElementTree resolves
`vif:Component` etc. to Clark notation). -/

def vifComponent : Tag := .str "\x7bhttp://usb.org/VendorInfoFile.xsd\x7dComponent"

def vifPortLabel : Tag := .str "\x7bhttp://usb.org/VendorInfoFile.xsd\x7dPort_Label"

def optOptionalContent : Tag :=
  .str "\x7bhttp://usb.org/VendorInfoFileOptionalContent.xsd\x7dOptionalContent"

/-! ### Tree search primitives (`Element.find` / `Element.findall`) -/

/-- `port.find("tag")`: the first direct child with the given tag. -/
def findChild (t : Tag) (e : XElem) : Option XElem :=
  e.children.find? (fun c => c.tag = t)

mutual
/-- All proper descendants of `e`, in document (pre-)order. -/
def descendants : XElem → List XElem
  | .mk _ _ _ _ cs _ => descList cs

/-- Descendants-or-self of each member of a sibling list, in document order. -/
def descList : List XElem → List XElem
  | [] => []
  | c :: cs => c :: (descendants c ++ descList cs)
end

/-- `e.findall(".//tag")`: every proper descendant with the given tag, in
document order (the root itself is not included by `.//`). -/
def findallDesc (t : Tag) (e : XElem) : List XElem :=
  (descendants e).filter (fun c => c.tag = t)

/-- `e.find(".//tag")`: the first proper descendant with the given tag. -/
def findDesc (t : Tag) (e : XElem) : Option XElem :=
  (findallDesc t e).head?

/-- `port.remove(x)` where `x` was obtained as `port.find("opt:OptionalContent")`:
removes the first child carrying the given tag.  (Python's `list.remove`
removes the first child identical to `x`; children preceding the first
`opt:OptionalContent` child carry other tags, so cannot be `x`, hence the
removed position is exactly the first child with `x`'s tag.) -/
def removeFirst (t : Tag) : List XElem → List XElem
  | [] => []
  | c :: rest => if c.tag = t then rest else c :: removeFirst t rest

/-! ### Serialization (`ET.tostring(elem, encoding='unicode', method='xml')`)

Modelled from ElementTree's `_serialize_xml`: an element becomes
`<tag attrs>text …children…</tag>tail`, or `<tag attrs />tail` when it has
neither (non-empty) text nor children; a comment becomes `<!--text-->tail`.
Text and tails go through `_escape_cdata`, attribute values through
`_escape_attrib`.  Prefix resolution is simplified: the serializer writes
the stored Clark-notation tag directly instead of a registered prefix plus
an `xmlns` declaration, an injective renaming that leaves every
string-comparison of serialized trees unchanged. -/

def escape_cdata (s : String) : String :=
  String.join (s.toList.map (fun c =>
    if c = '&' then "&amp;"
    else if c = '<' then "&lt;"
    else if c = '>' then "&gt;"
    else String.mk [c]))

def escape_attrib (s : String) : String :=
  String.join (s.toList.map (fun c =>
    if c = '&' then "&amp;"
    else if c = '<' then "&lt;"
    else if c = '>' then "&gt;"
    else if c = '"' then "&quot;"
    else if c = '\r' then "&#13;"
    else if c = '\n' then "&#10;"
    else if c = '\t' then "&#09;"
    else String.mk [c]))

/-- Python truthiness of an optional string (`None` and `""` are falsy). -/
def textTruthy : Option String → Bool
  | none => false
  | some s => !(s == "")

def attrsString (a : List (String × String)) : String :=
  String.join (a.map (fun p => " " ++ p.1 ++ "=\"" ++ escape_attrib p.2 ++ "\""))

def tailString (tl : Option String) : String :=
  if textTruthy tl then escape_cdata (tl.getD "") else ""

mutual
def serializeEl : XElem → String
  | .mk .comment _ tx _ _ _ => "<!--" ++ tx.getD "" ++ "-->"
  | .mk (.str t) a tx _ cs _ =>
    "<" ++ t ++ attrsString a ++
      (if textTruthy tx || !cs.isEmpty then
        ">" ++ (if textTruthy tx then escape_cdata (tx.getD "") else "")
          ++ serializeList cs ++ "</" ++ t ++ ">"
      else " />")

/-- The children of an element in context: each child's serialization is
followed by its escaped tail (as `_serialize_xml` writes it). -/
def serializeList : List XElem → String
  | [] => ""
  | c :: cs => serializeEl c ++ tailString c.tail ++ serializeList cs
end

/-- `ET.tostring(e, encoding='unicode', method='xml')`: the serialized
element followed by its own tail. -/
def tostring (e : XElem) : String :=
  serializeEl e ++ tailString e.tail

/-- Python `str.splitlines` restricted to the line boundaries that occur in
serialized XML text: `\n`, `\r` and `\r\n` (XML parsing itself normalizes
line ends, and a terminal boundary produces no trailing empty line). -/
def splitlinesAux : List Char → List Char → List String
  | [], cur => if cur.isEmpty then [] else [String.mk cur.reverse]
  | '\r' :: '\n' :: rest, cur => String.mk cur.reverse :: splitlinesAux rest []
  | c :: rest, cur =>
    if c == '\n' || c == '\r' then String.mk cur.reverse :: splitlinesAux rest []
    else splitlinesAux rest (c :: cur)

def splitlines (s : String) : List String := splitlinesAux s.toList []

def isPythonSpace (c : Char) : Bool :=
  c == ' ' || c == '\t' || c == '\n' || c == '\r' || c == '\x0b' || c == '\x0c'

/-- Python `str.strip()`. -/
def pyStrip (s : String) : String :=
  String.mk (((s.toList.dropWhile isPythonSpace).reverse.dropWhile isPythonSpace).reverse)

/-- The whitespace-trimmed-per-line view of a serialized tree:
`[line.strip() for line in ET.tostring(x).splitlines()]`. -/
def strippedLines (x : XElem) : List String := (splitlines (tostring x)).map pyStrip

/-! ### `DPAMVIFGenerator.elements_equal` -/

/-- Python `dict` equality on attribute mappings: the two stored mappings
agree as key → value functions on every key of either (order-insensitive,
exactly `e1.attrib == e2.attrib` on dictionaries). -/
def attribEq (a b : List (String × String)) : Bool :=
  (a.map Prod.fst ++ b.map Prod.fst).all (fun k => a.lookup k == b.lookup k)

mutual
/-- `DPAMVIFGenerator.elements_equal`: tag, text, tail, attribute mapping,
child count, then pairwise recursion over `zip`ped children. -/
def elements_equal : XElem → XElem → Bool
  | .mk t a tx tl cs _, .mk t' a' tx' tl' cs' _ =>
    if t ≠ t' then false
    else if tx ≠ tx' then false
    else if tl ≠ tl' then false
    else if !attribEq a a' then false
    else if cs.length ≠ cs'.length then false
    else equalChildren cs cs'

/-- `all(elements_equal(c1, c2) for c1, c2 in zip(e1, e2))`, unrolled over
the two child lists (`zip` stops at the shorter list). -/
def equalChildren : List XElem → List XElem → Bool
  | c :: cs, d :: ds => elements_equal c d && equalChildren cs ds
  | _, _ => true
end

/-! ### `DPAMVIFGenerator.contains_contents` -/

mutual
/-- `DPAMVIFGenerator.contains_contents(obj1, obj2)`: false on a tag
mismatch; true when `obj2` is a direct child of `obj1` (Python membership,
i.e. object identity — `eid`); otherwise the loop over `obj1`'s children
decides at the *first* child tagged `opt:OptionalContent` (the loop
`return`s inside that branch). -/
def contains_contents : XElem → XElem → Bool
  | .mk t _ _ _ cs _, o2 =>
    if t ≠ o2.tag then false
    else if cs.any (fun c => c.eid == o2.eid) then true
    else containsLoop o2 cs

/-- The `for child in obj1:` loop body of `contains_contents`: children with
other tags are skipped; at the first `opt:OptionalContent` child the loop
returns — recursive containment, else equality of the serialized,
whitespace-stripped-per-line texts. -/
def containsLoop (o2 : XElem) : List XElem → Bool
  | [] => false
  | c :: rest =>
    if c.tag = optOptionalContent then
      if contains_contents c o2 then true
      else strippedLines c == strippedLines o2
    else containsLoop o2 rest
end

/-! ### `DPAMVIFGenerator.get_port_settings_from_vif`

The Python dictionary `port_settings` is embedded as a function from keys
to `Option (Option XElem)`: `none` means the key is absent (a lookup raises
`KeyError`), `some none` means the key is bound to Python's `None` (a
component without optional content), `some (some s)` binds it to an
element.  Keys themselves are `Option String`, because `port_data.text` can
be Python `None`; the unlabeled bucket is the *string* key `"NA"`. -/

abbrev PortIndex := Option String → Option (Option XElem)

def emptyIndex : PortIndex := fun _ => none

/-- `port_settings[key] = value` (dictionary update: last write wins). -/
def updateIdx (m : PortIndex) (k : Option String) (v : Option XElem) : PortIndex :=
  fun q => if q = k then some v else m q

/-- `DPAMVIFGenerator.get_port_settings_from_vif`: for every `vif:Component`
found by recursive descent, store the first `.//opt:OptionalContent`
descendant under the `Port_Label` child's text when that child exists,
under `"NA"` otherwise. -/
def get_port_settings_from_vif (dpam_settings : XElem) : PortIndex :=
  (findallDesc vifComponent dpam_settings).foldl
    (fun port_settings port =>
      match findChild vifPortLabel port with
      | some port_data =>
          updateIdx port_settings port_data.text (findDesc optOptionalContent port)
      | none =>
          updateIdx port_settings (some "NA") (findDesc optOptionalContent port))
    emptyIndex

/-! ### `DPAMVIFGenerator.generate_dpam_vif`

The loop body for one `vif:Component` is `portStep`; it returns whether the
existing `opt:OptionalContent` child was removed and the list of newly
appended children.  Failures are explicit: `keyError k` embeds the
`KeyError` a missing `port_settings[k]` raises, and `noneError` embeds the
`TypeError`/`AttributeError` raised when the stored settings value is
Python `None` (appending `None` to a port, or comparing against it).
Either failure aborts the whole generation, as an uncaught Python
exception does. -/

inductive MergeErr where
  | keyError (k : Option String)
  | noneError
deriving DecidableEq

instance {ε α : Type} [DecidableEq ε] [DecidableEq α] : DecidableEq (Except ε α) := fun a b =>
  match a, b with
  | .error e, .error e' =>
    if h : e = e' then .isTrue (by rw [h]) else .isFalse (by intro hc; cases hc; exact h rfl)
  | .ok v, .ok v' =>
    if h : v = v' then .isTrue (by rw [h]) else .isFalse (by intro hc; cases hc; exact h rfl)
  | .error _, .ok _ => .isFalse (by intro hc; cases hc)
  | .ok _, .error _ => .isFalse (by intro hc; cases hc)

/-- `port_settings[k]` followed by use of the value as an element. -/
def lookupKey (idx : PortIndex) (k : Option String) : Except MergeErr XElem :=
  match idx k with
  | none => .error (.keyError k)
  | some none => .error .noneError
  | some (some s) => .ok s

/-- `ET.Comment("…")`: a fresh comment node (no attributes, no children,
no tail).  Its object identity never reaches an identity comparison, so the
embedding fixes `eid = 0`. -/
def mkComment (s : String) : XElem := .mk .comment [] (some s) none [] 0

/-- The key under which the loop looks a port up: `port_name.text` when the
`vif:Port_Label` child exists (in every branch that uses it), the string
`"NA"` when it does not. -/
def portKey (port : XElem) : Option String :=
  match findChild vifPortLabel port with
  | some port_name => port_name.text
  | none => some "NA"

/-- One iteration of the `for port in input_vif.getroot().findall(".//vif:Component")`
loop (script.py lines 216–248), as a pure step: `.ok (removed, appended)`
means the port's children become
`(if removed then the first opt:OptionalContent child is dropped) ++ appended`.

The source's guard is `if optional_content and port_name != None:` —
*truthiness*, not an `is not None` test: an existing `opt:OptionalContent`
child with no children is falsy and falls through to the append-only
branch. -/
def portStep (idx : PortIndex) (port : XElem) : Except MergeErr (Bool × List XElem) :=
  match findChild optOptionalContent port, findChild vifPortLabel port with
  | some optional_content, some port_name =>
    if optional_content.children.isEmpty then
      -- `bool(optional_content)` is False: the else-branch runs with a label
      match lookupKey idx port_name.text with
      | .error er => .error er
      | .ok s => .ok (false, [mkComment "Non-USB Content", s])
    else
      match lookupKey idx port_name.text with
      | .error er => .error er
      | .ok s =>
        if contains_contents optional_content s then .ok (false, [])
        else .ok (true, [s])
  | none, some port_name =>
    match lookupKey idx port_name.text with
    | .error er => .error er
    | .ok s => .ok (false, [mkComment "Non-USB Content", s])
  | some optional_content, none =>
    match lookupKey idx (some "NA") with
    | .error er => .error er
    | .ok s =>
      if elements_equal optional_content s then .ok (false, [])
      else .ok (true, [s])
  | none, none =>
    match lookupKey idx (some "NA") with
    | .error er => .error er
    | .ok s => .ok (false, [mkComment "Non-USB Content", s])

mutual
/-- The whole merge pass on one subtree.  The source precomputes
`findall(".//vif:Component")` (document order) and then mutates each listed
port; the embedding performs the same steps structurally: a component's own
step runs before its descendants' steps (document order), the recursion
visits all children that were present when the pass started — including a
subtree the step detaches, which the source also still processes (its
mutations are invisible in the output, but its failures abort the run, so
the removal is applied after the recursive result) — and never the children
the pass itself appended (they were not in the precomputed list). -/
def mergeEl (idx : PortIndex) : XElem → Except MergeErr XElem
  | .mk t a tx tl cs i =>
    if t = vifComponent then
      match portStep idx (.mk t a tx tl cs i) with
      | .error er => .error er
      | .ok (removed, appended) =>
        match mergeList idx cs with
        | .error er => .error er
        | .ok cs' =>
          .ok (.mk t a tx tl
            ((if removed then removeFirst optOptionalContent cs' else cs') ++ appended) i)
    else
      match mergeList idx cs with
      | .error er => .error er
      | .ok cs' => .ok (.mk t a tx tl cs' i)

def mergeList (idx : PortIndex) : List XElem → Except MergeErr (List XElem)
  | [] => .ok []
  | c :: cs =>
    match mergeEl idx c with
    | .error er => .error er
    | .ok c' =>
      match mergeList idx cs with
      | .error er => .error er
      | .ok cs' => .ok (c' :: cs')
end

/-- The merge pass from the document root: `.//vif:Component` never selects
the root element itself, so the root's fields and child-list structure pass
through and only the components below it are stepped. -/
def mergeRoot (idx : PortIndex) : XElem → Except MergeErr XElem
  | .mk t a tx tl cs i =>
    match mergeList idx cs with
    | .error er => .error er
    | .ok cs' => .ok (.mk t a tx tl cs' i)

/-- `DPAMVIFGenerator.generate_dpam_vif(input_vif, dpam_settings)`: build
the port-settings index from the settings tree, then run the merge pass
over the VIF tree. -/
def generate_dpam_vif (input_vif dpam_settings : XElem) : Except MergeErr XElem :=
  mergeRoot (get_port_settings_from_vif dpam_settings) input_vif

/-! ### Specification-side definitions

Definitions below transcribe the *spec's words* (not the code), to be
compared with the source embeddings above. -/

mutual
/-- The spec's characterization of structural equality: equal tag, text,
tail, attribute mappings, the same number of children, and pairwise
structurally equal children in document order (comments count as
children). -/
def specStructEq : XElem → XElem → Prop
  | .mk t a tx tl cs _, .mk t' a' tx' tl' cs' _ =>
    t = t' ∧ tx = tx' ∧ tl = tl' ∧ attribEq a a' = true ∧
      cs.length = cs'.length ∧ specStructEqChildren cs cs'

/-- Pairwise structural equality of two child lists in document order
(up to the shorter list; the separate count conjunct pins the lengths). -/
def specStructEqChildren : List XElem → List XElem → Prop
  | c :: cs, d :: ds => specStructEq c d ∧ specStructEqChildren cs ds
  | _, _ => True
end

/-! ### Side conditions used by the idempotence analysis -/

mutual
/-- No `vif:Component` occurs in the subtree (the element itself included). -/
def compFree : XElem → Bool
  | .mk t _ _ _ cs _ => !(t == vifComponent) && compFreeList cs

def compFreeList : List XElem → Bool
  | [] => true
  | c :: cs => compFree c && compFreeList cs
end

/-- Number of children carrying the given tag. -/
def countTag (t : Tag) (l : List XElem) : Nat := l.countP (fun c => c.tag = t)

/-- The per-port side conditions under which the merge is idempotent:
the port's children contain no nested `vif:Component`; it has at most one
direct `opt:OptionalContent` child; when both a `vif:Port_Label` and an
existing `opt:OptionalContent` child are present the latter is non-empty
(Python-truthy); and the port's settings lookup succeeds with an
`opt:OptionalContent` element that contains no `vif:Component` and — for a
labeled port — is non-empty. -/
def goodPort (idx : PortIndex) (port : XElem) : Bool :=
  compFreeList port.children &&
  (countTag optOptionalContent port.children ≤ 1 : Bool) &&
  (match findChild vifPortLabel port, findChild optOptionalContent port with
   | some _, some existing => !existing.children.isEmpty
   | _, _ => true) &&
  (match idx (portKey port) with
   | some (some s) =>
     (s.tag == optOptionalContent) && compFree s &&
       (!(findChild vifPortLabel port).isSome || !s.children.isEmpty)
   | _ => false)

mutual
/-- Every `vif:Component` in the subtree (the element itself included)
satisfies `goodPort`. -/
def goodT (idx : PortIndex) : XElem → Bool
  | .mk t a tx tl cs i =>
    (if t = vifComponent then goodPort idx (.mk t a tx tl cs i) else true) && goodList idx cs

def goodList (idx : PortIndex) : List XElem → Bool
  | [] => true
  | c :: cs => goodT idx c && goodList idx cs
end

/-! ### Concrete documents used as witnesses and counterexamples -/

/-- Settings document: a labeled component (`Port_Label` text `"P1"`) whose
optional content wraps a `<Wired>` element, and an unlabeled component
stored under `"NA"`. -/
def sWired : XElem := .mk (.str "Wired") [] (some "1") none [] 107

def sOC : XElem := .mk optOptionalContent [] none none [sWired] 106

def sPL : XElem := .mk vifPortLabel [] (some "P1") none [] 105

def sComp : XElem := .mk vifComponent [] none none [sPL, sOC] 104

def sOCna : XElem :=
  .mk optOptionalContent [] none none [.mk (.str "NAdata") [] none none [] 109] 108

def sCompNA : XElem := .mk vifComponent [] none none [sOCna] 110

def sRoot : XElem := .mk (.str "root") [] none none [sComp, sCompNA] 103

/-- The index built from `sRoot`. -/
def exIdx : PortIndex := get_port_settings_from_vif sRoot

/-- VIF document: one component labeled `"P1"` with no optional content. -/
def vPL : XElem := .mk vifPortLabel [] (some "P1") none [] 5

def vComp : XElem := .mk vifComponent [] none none [vPL] 4

def vRoot : XElem := .mk (.str "VIF") [] none none [vComp] 3

/-- A labeled port with an existing — but childless, hence Python-falsy —
`opt:OptionalContent` child. -/
def emptyOC : XElem := .mk optOptionalContent [] none none [] 6

def portEmptyOC : XElem := .mk vifComponent [] none none [vPL, emptyOC] 7

/-- An unlabeled port whose existing content structurally equals the
`"NA"` settings content (identities differ, structure agrees). -/
def copyOCna : XElem :=
  .mk optOptionalContent [] none none [.mk (.str "NAdata") [] none none [] 11] 12

def portNA : XElem := .mk vifComponent [] none none [copyOCna] 13

/-- A labeled port whose lookup key is missing from `exIdx`. -/
def portMiss : XElem :=
  .mk vifComponent [] none none [.mk vifPortLabel [] (some "P9") none [] 14] 15

/-- A VIF document holding only the port with the missing label. -/
def vRootMiss : XElem := .mk (.str "VIF") [] none none [portMiss] 16

/-- A plain leaf element unrelated to any namespace of the program. -/
def leafEx : XElem := .mk (.str "leaf") [] none none [] 400

/-- Settings document whose `"P1"` optional content is childless: the
merged VIF then carries a falsy `opt:OptionalContent`, and a second merge
pass appends the comment and content again. -/
def sOCempty : XElem := .mk optOptionalContent [] none none [] 206

def sCompE : XElem :=
  .mk vifComponent [] none none [.mk vifPortLabel [] (some "P1") none [] 205, sOCempty] 204

def sRootE : XElem := .mk (.str "root") [] none none [sCompE] 203

/-- Containment counterexample: a container whose first
`opt:OptionalContent` child does not match the target but whose second
child serializes identically to it. -/
def cexA : XElem := .mk optOptionalContent [] (some "a") none [] 301

def cexB : XElem := .mk optOptionalContent [] (some "b") none [] 302

def cexTarget : XElem := .mk optOptionalContent [] (some "b") none [] 309

def cexContainer : XElem := .mk optOptionalContent [] none none [cexA, cexB] 300

/-- Two elements differing only in one attribute value. -/
def attrEx1 : XElem := .mk (.str "x") [("k", "1")] none none [] 310

def attrEx2 : XElem := .mk (.str "x") [("k", "2")] none none [] 311

/-- Two elements differing only in the order of their (distinct) children. -/
def ordU : XElem := .mk (.str "u") [] none none [] 312

def ordV : XElem := .mk (.str "v") [] none none [] 313

def ordEx1 : XElem := .mk (.str "x") [] none none [ordU, ordV] 314

def ordEx2 : XElem := .mk (.str "x") [] none none [ordV, ordU] 315

/-! ## Basic lemmas -/

@[simp] theorem XElem.tag_mk (t a tx tl cs i) : (XElem.mk t a tx tl cs i).tag = t := rfl

@[simp] theorem XElem.attrib_mk (t a tx tl cs i) : (XElem.mk t a tx tl cs i).attrib = a := rfl

@[simp] theorem XElem.text_mk (t a tx tl cs i) : (XElem.mk t a tx tl cs i).text = tx := rfl

@[simp] theorem XElem.tail_mk (t a tx tl cs i) : (XElem.mk t a tx tl cs i).tail = tl := rfl

@[simp] theorem XElem.children_mk (t a tx tl cs i) : (XElem.mk t a tx tl cs i).children = cs := rfl

@[simp] theorem XElem.eid_mk (t a tx tl cs i) : (XElem.mk t a tx tl cs i).eid = i := rfl

theorem attribEq_refl (a : List (String × String)) : attribEq a a = true := by
  simp [attribEq]

mutual
theorem elements_equal_refl : ∀ e : XElem, elements_equal e e = true
  | .mk t a tx tl cs i => by
    simp only [elements_equal, attribEq_refl, ne_eq, not_true_eq_false, if_false,
      Bool.not_true, ite_self]
    simpa using equalChildren_refl cs

theorem equalChildren_refl : ∀ l : List XElem, equalChildren l l = true
  | [] => rfl
  | c :: cs => by
    simp only [equalChildren, Bool.and_eq_true]
    exact ⟨elements_equal_refl c, equalChildren_refl cs⟩
end

mutual
theorem mergeEl_compFree (idx : PortIndex) :
    ∀ e : XElem, compFree e = true → mergeEl idx e = .ok e
  | .mk t a tx tl cs i, h => by
    simp only [compFree, Bool.and_eq_true, Bool.not_eq_true', beq_eq_false_iff_ne, ne_eq] at h
    simp only [mergeEl, if_neg h.1, mergeList_compFree idx cs h.2]

theorem mergeList_compFree (idx : PortIndex) :
    ∀ l : List XElem, compFreeList l = true → mergeList idx l = .ok l
  | [], _ => rfl
  | c :: cs, h => by
    simp only [compFreeList, Bool.and_eq_true] at h
    simp only [mergeList, mergeEl_compFree idx c h.1, mergeList_compFree idx cs h.2]
end

/-! ## C7 — `elements_equal` is exactly the spec's structural equality -/

mutual
theorem elements_equal_iff_aux :
    ∀ a b : XElem, elements_equal a b = true ↔ specStructEq a b
  | .mk t a tx tl cs i, .mk t' a' tx' tl' cs' i' => by
    simp only [elements_equal, specStructEq]
    by_cases h1 : t = t'
    · by_cases h2 : tx = tx'
      · by_cases h3 : tl = tl'
        · by_cases h4 : attribEq a a' = true
          · by_cases h5 : cs.length = cs'.length
            · simp only [h1, h2, h3, h4, h5, ne_eq, not_true_eq_false, if_false,
                Bool.not_true, true_and]
              simpa using equalChildren_iff_aux cs cs'
            · simp [h1, h2, h3, h4, h5]
          · simp [h1, h2, h3, h4]
        · simp [h1, h2, h3]
      · simp [h1, h2]
    · simp [h1]

theorem equalChildren_iff_aux :
    ∀ l l' : List XElem, equalChildren l l' = true ↔ specStructEqChildren l l'
  | [], [] => by simp [equalChildren, specStructEqChildren]
  | [], _ :: _ => by simp [equalChildren, specStructEqChildren]
  | _ :: _, [] => by simp [equalChildren, specStructEqChildren]
  | c :: cs, d :: ds => by
    simp only [equalChildren, specStructEqChildren, Bool.and_eq_true]
    exact and_congr (elements_equal_iff_aux c d) (equalChildren_iff_aux cs ds)
end

/-- C7: `elements_equal(a, b)` returns true exactly when `a` and `b` have
equal tag, text, tail and attribute mappings, the same number of children,
and pairwise structurally equal children in document order; consequently
two elements differing only in one attribute value (`attrEx1`/`attrEx2`),
or only in the order of their children (`ordEx1`/`ordEx2`), are not
equal. -/
theorem elements_equal_spec :
    (∀ a b : XElem, elements_equal a b = true ↔ specStructEq a b) ∧
      elements_equal attrEx1 attrEx2 = false ∧ elements_equal ordEx1 ordEx2 = false :=
  ⟨elements_equal_iff_aux, by decide, by decide⟩

/-! ## C10 — containment is not reflexive on wrapper-free content -/

theorem containsLoop_of_no_oc (o2 : XElem) :
    ∀ l : List XElem, (∀ c ∈ l, c.tag ≠ optOptionalContent) → containsLoop o2 l = false
  | [], _ => rfl
  | c :: rest, h => by
    simp only [containsLoop, if_neg (h c (List.mem_cons_self c rest))]
    exact containsLoop_of_no_oc o2 rest (fun d hd => h d (List.mem_cons_of_mem c hd))

/-- C10: for an element `x` tagged `opt:OptionalContent` with no child
tagged `opt:OptionalContent` (and, as object identity guarantees for any
real tree, no child that *is* `x`), `contains_contents x x` is false even
though `x` is structurally equal to itself. -/
theorem contains_contents_not_refl (x : XElem)
    (htag : x.tag = optOptionalContent)
    (hchild : ∀ c ∈ x.children, c.tag ≠ optOptionalContent)
    (hid : ∀ c ∈ x.children, c.eid ≠ x.eid) :
    contains_contents x x = false ∧ elements_equal x x = true := by
  refine ⟨?_, elements_equal_refl x⟩
  cases x with
  | mk t a tx tl cs i =>
    simp only [contains_contents, XElem.tag, ne_eq, not_true_eq_false, if_false]
    have hany : cs.any (fun c => c.eid == XElem.eid (.mk t a tx tl cs i)) = false := by
      simp only [List.any_eq_false, XElem.eid]
      intro c hc
      simpa using hid c hc
    simp only [hany, Bool.false_eq_true, if_false]
    exact containsLoop_of_no_oc _ cs hchild

/-- Witness for C10 at the concrete element `sOC`. -/
theorem contains_contents_not_refl_wit :
    contains_contents sOC sOC = false ∧ elements_equal sOC sOC = true :=
  contains_contents_not_refl sOC (by decide) (by decide) (by decide)

/-! ## C6 — the settings index -/

theorem step_updateIdx (acc : PortIndex) (p : XElem) :
    (match findChild vifPortLabel p with
     | some port_data => updateIdx acc port_data.text (findDesc optOptionalContent p)
     | none => updateIdx acc (some "NA") (findDesc optOptionalContent p)) =
      updateIdx acc (portKey p) (findDesc optOptionalContent p) := by
  unfold portKey
  cases findChild vifPortLabel p <;> rfl

theorem getLast?_cons (a : α) (l : List α) : (a :: l).getLast? = l.getLast?.or (some a) := by
  have h := @List.getLast?_append α [a] l
  simpa using h

theorem foldl_updateIdx (k : Option String) :
    ∀ (l : List XElem) (m : PortIndex),
      (l.foldl (fun acc p => updateIdx acc (portKey p) (findDesc optOptionalContent p)) m) k =
        match ((l.map (fun p => (portKey p, findDesc optOptionalContent p))).filter
            (fun e => e.1 = k)).getLast? with
        | some e => some e.2
        | none => m k
  | [], m => rfl
  | p :: rest, m => by
    rw [List.foldl_cons, foldl_updateIdx k rest, List.map_cons, List.filter_cons]
    by_cases hk : portKey p = k
    · rw [if_pos (by simp [hk]), getLast?_cons]
      cases hrest : ((rest.map (fun p => (portKey p, findDesc optOptionalContent p))).filter
          (fun e => e.1 = k)).getLast? with
      | some e => rfl
      | none =>
        unfold updateIdx
        rw [if_pos hk.symm]
        rfl
    · rw [if_neg (by simp [hk])]
      cases hrest : ((rest.map (fun p => (portKey p, findDesc optOptionalContent p))).filter
          (fun e => e.1 = k)).getLast? with
      | some e => rfl
      | none =>
        unfold updateIdx
        rw [if_neg (fun hke => hk hke.symm)]

/-- C6: the settings index binds, for every `vif:Component` found by
recursive descent, the key given by the `Port_Label` child's text when that
child exists and `"NA"` otherwise, to that component's first
`opt:OptionalContent` descendant (`none` when there is none, and no error
is raised); several components with the same key — in particular several
unlabeled ones — resolve to the *last* one in document order, so the index
holds at most one binding per key. -/
theorem get_port_settings_spec (root : XElem) (k : Option String) :
    get_port_settings_from_vif root k =
      ((((findallDesc vifComponent root).map
          (fun p => (portKey p, findDesc optOptionalContent p))).filter
          (fun e => e.1 = k)).getLast?).map Prod.snd := by
  unfold get_port_settings_from_vif
  have hf : (fun (port_settings : PortIndex) (port : XElem) =>
      match findChild vifPortLabel port with
      | some port_data =>
          updateIdx port_settings port_data.text (findDesc optOptionalContent port)
      | none =>
          updateIdx port_settings (some "NA") (findDesc optOptionalContent port)) =
      (fun acc p => updateIdx acc (portKey p) (findDesc optOptionalContent p)) := by
    funext acc p
    exact step_updateIdx acc p
  rw [hf, foldl_updateIdx]
  cases (((findallDesc vifComponent root).map
      (fun p => (portKey p, findDesc optOptionalContent p))).filter
      (fun e => e.1 = k)).getLast? with
  | some e => rfl
  | none => rfl

/-! ## C5 — unlabeled port with existing content -/

/-- C5: for a port with an existing `opt:OptionalContent` child and no
`Port_Label` child, the step compares the existing element against the
`"NA"` settings content with *structural equality* (`elements_equal`): on
inequality the existing child is removed and `index["NA"]` appended; on
equality nothing is removed and nothing appended. -/
theorem portStep_unlabeled_existing (idx : PortIndex) (port existing s : XElem)
    (hoc : findChild optOptionalContent port = some existing)
    (hpl : findChild vifPortLabel port = none)
    (hna : idx (some "NA") = some (some s)) :
    (elements_equal existing s = true → portStep idx port = .ok (false, [])) ∧
    (elements_equal existing s = false → portStep idx port = .ok (true, [s])) := by
  unfold portStep lookupKey
  rw [hoc, hpl, hna]
  constructor <;> intro h <;> simp [h]

/-- Witness for C5 at the concrete unlabeled port `portNA` (its existing
content structurally equals the `"NA"` settings content, so the step is a
no-op). -/
theorem portStep_unlabeled_existing_wit :
    ((elements_equal copyOCna sOCna = true → portStep exIdx portNA = .ok (false, [])) ∧
      (elements_equal copyOCna sOCna = false → portStep exIdx portNA = .ok (true, [sOCna]))) ∧
      elements_equal copyOCna sOCna = true ∧ portStep exIdx portNA = .ok (false, []) := by
  refine ⟨portStep_unlabeled_existing exIdx portNA copyOCna sOCna rfl rfl rfl, by decide, ?_⟩
  exact (portStep_unlabeled_existing exIdx portNA copyOCna sOCna rfl rfl rfl).1 (by decide)

/-! ## C4 — port without existing content -/

/-- C4: a port with no existing direct `opt:OptionalContent` child gains
exactly two new children appended after all its existing children (comments
included): a comment node with text `"Non-USB Content"` followed by the
looked-up settings content — `index[label]` for a labeled port, and
`index["NA"]` for an unlabeled one (both cases are `portKey`).  Its tag,
attributes, text, tail and existing children are unchanged (the recursive
pass returns the children untouched since they hold no nested
component). -/
theorem mergeEl_no_existing (idx : PortIndex) (port s : XElem)
    (htag : port.tag = vifComponent)
    (hoc : findChild optOptionalContent port = none)
    (hk : idx (portKey port) = some (some s))
    (hcf : compFreeList port.children = true) :
    portStep idx port = .ok (false, [mkComment "Non-USB Content", s]) ∧
    mergeEl idx port = .ok (.mk vifComponent port.attrib port.text port.tail
      (port.children ++ [mkComment "Non-USB Content", s]) port.eid) := by
  have hps : portStep idx port = .ok (false, [mkComment "Non-USB Content", s]) := by
    cases hpl : findChild vifPortLabel port with
    | some pn =>
      have hkey : portKey port = pn.text := by unfold portKey; rw [hpl]
      rw [hkey] at hk
      simp only [portStep, lookupKey, hoc, hpl, hk]
    | none =>
      have hkey : portKey port = some "NA" := by unfold portKey; rw [hpl]
      rw [hkey] at hk
      simp only [portStep, lookupKey, hoc, hpl, hk]
  refine ⟨hps, ?_⟩
  cases port with
  | mk t a tx tl cs i =>
    simp only [XElem.tag] at htag
    subst htag
    simp only [XElem.children] at hcf
    simp only [mergeEl, if_pos rfl, hps, mergeList_compFree idx cs hcf]
    rfl

/-- Witness for C4 at the concrete labeled port `vComp` (no existing
content): it gains the comment plus the `"P1"` settings content. -/
theorem mergeEl_no_existing_wit :
    portStep exIdx vComp = .ok (false, [mkComment "Non-USB Content", sOC]) ∧
    mergeEl exIdx vComp = .ok (.mk vifComponent vComp.attrib vComp.text vComp.tail
      (vComp.children ++ [mkComment "Non-USB Content", sOC]) vComp.eid) :=
  mergeEl_no_existing exIdx vComp sOC (by decide) (by decide) (by decide) (by decide)

/-! ## C1 — labeled port with an existing but childless content block -/

/-- C1 (the source contradicts its own `# If both OptionalContent and
Port_Name exist` comment): `portEmptyOC` has both a `Port_Label` child and
an existing — non-null — direct `opt:OptionalContent` child, yet because
line 223 guards with `if optional_content and port_name != None:` and a
childless element is Python-falsy, the merge takes the append-only branch:
the existing element is *kept* and the settings content appended as well,
so the port ends up holding two `opt:OptionalContent` children at once. -/
theorem truthiness_keeps_both :
    findChild vifPortLabel portEmptyOC = some vPL ∧
    findChild optOptionalContent portEmptyOC = some emptyOC ∧
    mergeEl exIdx portEmptyOC = .ok (.mk vifComponent [] none none
      [vPL, emptyOC, mkComment "Non-USB Content", sOC] 7) ∧
    countTag optOptionalContent [vPL, emptyOC, mkComment "Non-USB Content", sOC] = 2 :=
  ⟨rfl, rfl, rfl, by decide⟩

/-! ## C2 — the containment characterization -/

/-- C2 counterexample: the claim reads `contains` as an existential over
*all* `opt:OptionalContent` children, but the source's loop returns at the
*first* one.  Here the container's second `opt:OptionalContent` child
(`cexB`) serializes — whitespace-trimmed per line — identically to the
target and the tags agree, so the claim's right-hand side holds, yet
`contains_contents` answers `false` because the first child already
decided. -/
theorem contains_first_child_cex :
    contains_contents cexContainer cexTarget = false ∧
    cexContainer.tag = cexTarget.tag ∧
    cexB ∈ cexContainer.children ∧
    cexB.tag = optOptionalContent ∧
    strippedLines cexB = strippedLines cexTarget :=
  ⟨by decide, by decide, by decide, by decide, by decide⟩

theorem containsLoop_eq_find (t : XElem) :
    ∀ l : List XElem, containsLoop t l =
      match l.find? (fun ch => ch.tag = optOptionalContent) with
      | none => false
      | some ch => contains_contents ch t || (strippedLines ch == strippedLines t)
  | [] => rfl
  | c :: rest => by
    by_cases hc : c.tag = optOptionalContent
    · rw [List.find?_cons_of_pos rest (by simpa using hc)]
      simp only [containsLoop, if_pos hc]
      by_cases h2 : contains_contents c t = true <;> simp [h2]
    · rw [List.find?_cons_of_neg rest (by simpa using hc)]
      simp only [containsLoop, if_neg hc]
      exact containsLoop_eq_find t rest

/-- C2 (amended): `contains_contents container target` is true exactly when
the tags agree and either `target` is a direct child of `container` by
identity, or the *first* child of `container` tagged `opt:OptionalContent`
exists and either recursively contains `target` or has serialized,
whitespace-trimmed-per-line XML text equal to `target`'s; children after
that first one are never consulted, and in every other case the result is
false. -/
theorem contains_contents_spec (c t : XElem) :
    contains_contents c t = true ↔
      (c.tag = t.tag ∧
        ((∃ ch ∈ c.children, ch.eid = t.eid) ∨
          ∃ ch, c.children.find? (fun x => x.tag = optOptionalContent) = some ch ∧
            (contains_contents ch t = true ∨ strippedLines ch = strippedLines t))) := by
  cases c with
  | mk tg a tx tl cs i =>
    simp only [contains_contents, XElem.tag_mk, XElem.children_mk]
    by_cases htag : tg = t.tag
    · rw [if_neg (not_not_intro htag)]
      by_cases hmem : cs.any (fun c => c.eid == t.eid) = true
      · rw [if_pos hmem]
        simp only [List.any_eq_true, beq_iff_eq] at hmem
        obtain ⟨x, hx, hxe⟩ := hmem
        simp only [true_iff]
        exact ⟨htag, Or.inl ⟨x, hx, hxe⟩⟩
      · rw [if_neg hmem, containsLoop_eq_find]
        rw [Bool.not_eq_true] at hmem
        simp only [List.any_eq_false, beq_iff_eq] at hmem
        cases hfind : cs.find? (fun x => x.tag = optOptionalContent) with
        | none =>
          simp only [Bool.false_eq_true, false_iff, not_and, not_or]
          intro _
          constructor
          · rintro ⟨x, hx, hxe⟩
            exact hmem x hx hxe
          · rintro ⟨ch, hch, _⟩
            simp [hfind] at hch
        | some ch =>
          simp only [Bool.or_eq_true, beq_iff_eq]
          constructor
          · intro h
            exact ⟨htag, Or.inr ⟨ch, rfl, h⟩⟩
          · rintro ⟨-, h | h⟩
            · obtain ⟨x, hx, hxe⟩ := h
              exact absurd hxe (hmem x hx)
            · obtain ⟨ch', hch', hdec⟩ := h
              rw [Option.some_inj] at hch'
              rw [hch']
              exact hdec
    · rw [if_pos htag]
      simp only [Bool.false_eq_true, false_iff, not_and]
      intro h
      exact absurd h htag

/-! ## C8 — a missing settings key is fatal -/

theorem lookupKey_ok_iff (idx : PortIndex) (k : Option String) (s : XElem) :
    lookupKey idx k = .ok s ↔ idx k = some (some s) := by
  unfold lookupKey
  cases h : idx k with
  | none => simp
  | some v => cases v <;> simp

theorem portStep_keyError (idx : PortIndex) (p : XElem)
    (h : idx (portKey p) = none) :
    portStep idx p = .error (.keyError (portKey p)) := by
  cases hpl : findChild vifPortLabel p with
  | some pn =>
    have hkey : portKey p = pn.text := by unfold portKey; rw [hpl]
    rw [hkey] at h ⊢
    cases hoc : findChild optOptionalContent p with
    | some oc =>
      by_cases he : oc.children.isEmpty = true <;>
        simp [portStep, lookupKey, hpl, hoc, h, he]
    | none => simp [portStep, lookupKey, hpl, hoc, h]
  | none =>
    have hkey : portKey p = some "NA" := by unfold portKey; rw [hpl]
    rw [hkey] at h ⊢
    cases hoc : findChild optOptionalContent p with
    | some oc => simp [portStep, lookupKey, hpl, hoc, h]
    | none => simp [portStep, lookupKey, hpl, hoc, h]

mutual
theorem mergeEl_missing (idx : PortIndex) :
    ∀ e : XElem,
      (∃ p ∈ e :: descendants e, p.tag = vifComponent ∧ idx (portKey p) = none) →
      ∃ er, mergeEl idx e = .error er
  | .mk t a tx tl cs i, ⟨p, hp, hptag, hpkey⟩ => by
    rcases List.mem_cons.mp hp with rfl | hpd
    · simp only [XElem.tag_mk] at hptag
      subst hptag
      have hps := portStep_keyError idx _ hpkey
      exact ⟨.keyError (portKey (XElem.mk vifComponent a tx tl cs i)),
        by simp [mergeEl, hps]⟩
    · have hld : ∃ q ∈ descList cs, q.tag = vifComponent ∧ idx (portKey q) = none :=
        ⟨p, by simpa [descendants] using hpd, hptag, hpkey⟩
      obtain ⟨er, herr⟩ := mergeList_missing idx cs hld
      by_cases ht : t = vifComponent
      · subst ht
        cases hps : portStep idx (.mk vifComponent a tx tl cs i) with
        | error er2 => exact ⟨er2, by simp [mergeEl, hps]⟩
        | ok pr =>
          obtain ⟨removed, ap⟩ := pr
          exact ⟨er, by simp [mergeEl, hps, herr]⟩
      · exact ⟨er, by simp [mergeEl, ht, herr]⟩

theorem mergeList_missing (idx : PortIndex) :
    ∀ l : List XElem,
      (∃ p ∈ descList l, p.tag = vifComponent ∧ idx (portKey p) = none) →
      ∃ er, mergeList idx l = .error er
  | [], ⟨p, hp, _, _⟩ => absurd hp (List.not_mem_nil p)
  | c :: cs, ⟨p, hp, hptag, hpkey⟩ => by
    have hp' : p = c ∨ p ∈ descendants c ∨ p ∈ descList cs := by
      simpa [descList, List.mem_cons, List.mem_append] using hp
    rcases hp' with rfl | hpc | hpcs
    · obtain ⟨er, herr⟩ :=
        mergeEl_missing idx p ⟨p, List.mem_cons_self p _, hptag, hpkey⟩
      exact ⟨er, by simp [mergeList, herr]⟩
    · obtain ⟨er, herr⟩ :=
        mergeEl_missing idx c ⟨p, List.mem_cons_of_mem c hpc, hptag, hpkey⟩
      exact ⟨er, by simp [mergeList, herr]⟩
    · cases hme : mergeEl idx c with
      | error er2 => exact ⟨er2, by simp [mergeList, hme]⟩
      | ok c' =>
        obtain ⟨er, herr⟩ := mergeList_missing idx cs ⟨p, hpcs, hptag, hpkey⟩
        exact ⟨er, by simp [mergeList, hme, herr]⟩
end

/-- C8: when some `vif:Component` of the VIF tree has a lookup key
(`Port_Label` text, or `"NA"` without a label) that is absent from the
settings index, that port's step raises the unstructured key-lookup error
`keyError` carrying the key — it is never silently skipped — and the whole
merge run fails with an error rather than producing a tree. -/
theorem mergeRoot_missing_key (idx : PortIndex) (root p0 : XElem)
    (hmem : p0 ∈ descendants root) (htag : p0.tag = vifComponent)
    (hkey : idx (portKey p0) = none) :
    portStep idx p0 = .error (.keyError (portKey p0)) ∧
    ∃ er, mergeRoot idx root = .error er := by
  refine ⟨portStep_keyError idx p0 hkey, ?_⟩
  cases root with
  | mk t a tx tl cs i =>
    obtain ⟨er, herr⟩ := mergeList_missing idx cs
      ⟨p0, by simpa [descendants] using hmem, htag, hkey⟩
    exact ⟨er, by simp [mergeRoot, herr]⟩

/-- Witness for C8: the label `"P9"` is absent from `exIdx`, so merging
`vRootMiss` fails with the key error. -/
theorem mergeRoot_missing_key_wit :
    portStep exIdx portMiss = .error (.keyError (portKey portMiss)) ∧
    ∃ er, mergeRoot exIdx vRootMiss = .error er :=
  mergeRoot_missing_key exIdx vRootMiss portMiss (by decide) (by decide) (by decide)

/-! ## C9 — the merge's frame -/

theorem mergeList_ok_forall₂ (idx : PortIndex) :
    ∀ (l l' : List XElem), mergeList idx l = .ok l' →
      List.Forall₂ (fun c c' => mergeEl idx c = .ok c') l l'
  | [], l', h => by
    simp only [mergeList] at h
    cases h
    exact .nil
  | c :: cs, l', h => by
    simp only [mergeList] at h
    cases hme : mergeEl idx c with
    | error er => rw [hme] at h; cases h
    | ok c' =>
      rw [hme] at h
      cases hml : mergeList idx cs with
      | error er => rw [hml] at h; cases h
      | ok cs' =>
        rw [hml] at h
        cases h
        exact .cons hme (mergeList_ok_forall₂ idx cs cs' hml)

theorem portStep_ok_shape (idx : PortIndex) (p : XElem) (removed : Bool) (ap : List XElem)
    (hidx : ∀ k v, idx k = some (some v) → v.tag = optOptionalContent)
    (h : portStep idx p = .ok (removed, ap)) :
    ∀ x ∈ ap, x.tag = optOptionalContent ∨ x.tag = Tag.comment := by
  cases hoc : findChild optOptionalContent p with
  | some oc =>
    cases hpl : findChild vifPortLabel p with
    | some pn =>
      simp only [portStep, hoc, hpl] at h
      by_cases he : oc.children.isEmpty = true
      · rw [if_pos he] at h
        cases hl : lookupKey idx pn.text with
        | error er => simp only [hl] at h; cases h
        | ok s =>
          simp only [hl] at h
          cases h
          intro x hx
          rcases hx with _ | ⟨_, hx⟩
          · exact Or.inr rfl
          · rcases hx with _ | ⟨_, hx⟩
            · exact Or.inl (hidx _ _ ((lookupKey_ok_iff idx pn.text s).mp hl))
            · cases hx
      · rw [if_neg he] at h
        cases hl : lookupKey idx pn.text with
        | error er => simp only [hl] at h; cases h
        | ok s =>
          simp only [hl] at h
          by_cases hcc : contains_contents oc s = true
          · rw [if_pos hcc] at h
            cases h
            intro x hx
            cases hx
          · rw [if_neg hcc] at h
            cases h
            intro x hx
            rcases hx with _ | ⟨_, hx⟩
            · exact Or.inl (hidx _ _ ((lookupKey_ok_iff idx pn.text s).mp hl))
            · cases hx
    | none =>
      simp only [portStep, hoc, hpl] at h
      cases hl : lookupKey idx (some "NA") with
      | error er => simp only [hl] at h; cases h
      | ok s =>
        simp only [hl] at h
        by_cases heq : elements_equal oc s = true
        · rw [if_pos heq] at h
          cases h
          intro x hx
          cases hx
        · rw [if_neg heq] at h
          cases h
          intro x hx
          rcases hx with _ | ⟨_, hx⟩
          · exact Or.inl (hidx _ _ ((lookupKey_ok_iff idx (some "NA") s).mp hl))
          · cases hx
  | none =>
    cases hpl : findChild vifPortLabel p with
    | some pn =>
      simp only [portStep, hoc, hpl] at h
      cases hl : lookupKey idx pn.text with
      | error er => simp only [hl] at h; cases h
      | ok s =>
        simp only [hl] at h
        cases h
        intro x hx
        rcases hx with _ | ⟨_, hx⟩
        · exact Or.inr rfl
        · rcases hx with _ | ⟨_, hx⟩
          · exact Or.inl (hidx _ _ ((lookupKey_ok_iff idx pn.text s).mp hl))
          · cases hx
    | none =>
      simp only [portStep, hoc, hpl] at h
      cases hl : lookupKey idx (some "NA") with
      | error er => simp only [hl] at h; cases h
      | ok s =>
        simp only [hl] at h
        cases h
        intro x hx
        rcases hx with _ | ⟨_, hx⟩
        · exact Or.inr rfl
        · rcases hx with _ | ⟨_, hx⟩
          · exact Or.inl (hidx _ _ ((lookupKey_ok_iff idx (some "NA") s).mp hl))
          · cases hx

/-- C9: a successful merge step mutates only the child lists of
`vif:Component` elements.  Every element keeps its tag, attributes, text
and tail; a non-component's children are exactly the recursively merged
originals (same count, same order — no insertion or removal at that node);
a component's children are the recursively merged originals, with at most
the first `opt:OptionalContent` child removed, followed only by appended
`opt:OptionalContent` elements and comment nodes (the index values are
`opt:OptionalContent` elements, as `get_port_settings_from_vif` stores). -/
theorem mergeEl_frame (idx : PortIndex)
    (hidx : ∀ k v, idx k = some (some v) → v.tag = optOptionalContent)
    (e e' : XElem) (h : mergeEl idx e = .ok e') :
    (e'.tag = e.tag ∧ e'.attrib = e.attrib ∧ e'.text = e.text ∧ e'.tail = e.tail) ∧
    (e.tag ≠ vifComponent →
      List.Forall₂ (fun c c' => mergeEl idx c = .ok c') e.children e'.children) ∧
    (e.tag = vifComponent → ∃ cs' ap,
      List.Forall₂ (fun c c' => mergeEl idx c = .ok c') e.children cs' ∧
      (e'.children = cs' ++ ap ∨ e'.children = removeFirst optOptionalContent cs' ++ ap) ∧
      ∀ x ∈ ap, x.tag = optOptionalContent ∨ x.tag = Tag.comment) := by
  cases e with
  | mk t a tx tl cs i =>
    simp only [mergeEl] at h
    by_cases ht : t = vifComponent
    · rw [if_pos ht] at h
      cases hps : portStep idx (.mk t a tx tl cs i) with
      | error er => rw [hps] at h; cases h
      | ok pr =>
        obtain ⟨removed, ap⟩ := pr
        rw [hps] at h
        cases hml : mergeList idx cs with
        | error er => rw [hml] at h; cases h
        | ok cs' =>
          rw [hml] at h
          cases h
          refine ⟨by simp, by intro hne; exact absurd ht hne, fun _ => ?_⟩
          refine ⟨cs', ap, mergeList_ok_forall₂ idx cs cs' hml, ?_,
            portStep_ok_shape idx _ removed ap hidx hps⟩
          cases removed <;> simp
    · rw [if_neg ht] at h
      cases hml : mergeList idx cs with
      | error er => rw [hml] at h; cases h
      | ok cs' =>
        rw [hml] at h
        cases h
        refine ⟨by simp, fun _ => ?_, fun hc => absurd hc ht⟩
        simpa using mergeList_ok_forall₂ idx cs cs' hml

/-- Witness for C9 at a plain leaf element and the empty index. -/
theorem mergeEl_frame_wit :
    (leafEx.tag = leafEx.tag ∧ leafEx.attrib = leafEx.attrib ∧
      leafEx.text = leafEx.text ∧ leafEx.tail = leafEx.tail) ∧
    (leafEx.tag ≠ vifComponent →
      List.Forall₂ (fun c c' => mergeEl emptyIndex c = .ok c') leafEx.children leafEx.children) ∧
    (leafEx.tag = vifComponent → ∃ cs' ap,
      List.Forall₂ (fun c c' => mergeEl emptyIndex c = .ok c') leafEx.children cs' ∧
      (leafEx.children = cs' ++ ap ∨
        leafEx.children = removeFirst optOptionalContent cs' ++ ap) ∧
      ∀ x ∈ ap, x.tag = optOptionalContent ∨ x.tag = Tag.comment) :=
  mergeEl_frame emptyIndex (fun _ _ h => Option.noConfusion h) leafEx leafEx rfl

/-! ## C3 — idempotence machinery -/

theorem findTag_removeFirst {t t' : Tag} (hne : t ≠ t') :
    ∀ l : List XElem,
      (removeFirst t' l).find? (fun c => c.tag = t) = l.find? (fun c => c.tag = t)
  | [] => rfl
  | c :: rest => by
    by_cases hc : c.tag = t'
    · rw [removeFirst, if_pos hc,
        List.find?_cons_of_neg rest
          (by simp only [decide_eq_true_eq]; exact fun h => hne (h.symm.trans hc))]
    · rw [removeFirst, if_neg hc]
      by_cases hct : c.tag = t
      · rw [List.find?_cons_of_pos rest (by simp [hct]),
          List.find?_cons_of_pos _ (by simp [hct])]
      · rw [List.find?_cons_of_neg rest (by simp [hct]),
          List.find?_cons_of_neg _ (by simp [hct])]
        exact findTag_removeFirst hne rest

theorem findTag_eq_none_iff (t : Tag) (l : List XElem) :
    l.find? (fun c => c.tag = t) = none ↔ ∀ c ∈ l, c.tag ≠ t := by
  rw [List.find?_eq_none]
  simp

theorem countTag_zero_iff (t : Tag) (l : List XElem) :
    countTag t l = 0 ↔ ∀ c ∈ l, c.tag ≠ t := by
  unfold countTag
  rw [List.countP_eq_zero]
  simp

theorem removeFirst_noTag (t : Tag) :
    ∀ l : List XElem, countTag t l ≤ 1 → ∀ c ∈ removeFirst t l, c.tag ≠ t
  | [], _ => by simp [removeFirst]
  | c :: rest, h => by
    by_cases hc : c.tag = t
    · rw [removeFirst, if_pos hc]
      have h0 : countTag t rest = 0 := by
        unfold countTag at h ⊢
        rw [List.countP_cons, if_pos (show decide (c.tag = t) = true by simp [hc])] at h
        omega
      exact (countTag_zero_iff t rest).mp h0
    · rw [removeFirst, if_neg hc]
      intro d hd
      rcases List.mem_cons.mp hd with rfl | hd'
      · exact hc
      · refine removeFirst_noTag t rest ?_ d hd'
        unfold countTag at h ⊢
        rw [List.countP_cons] at h
        omega

theorem removeFirst_append_of_noTag (t : Tag) :
    ∀ (l₁ l₂ : List XElem), (∀ c ∈ l₁, c.tag ≠ t) →
      removeFirst t (l₁ ++ l₂) = l₁ ++ removeFirst t l₂
  | [], l₂, _ => rfl
  | c :: rest, l₂, h => by
    rw [List.cons_append, removeFirst, if_neg (h c (List.mem_cons_self c rest)),
      removeFirst_append_of_noTag t rest l₂ (fun d hd => h d (List.mem_cons_of_mem c hd))]
    rfl

theorem compFreeList_append (l₁ l₂ : List XElem) :
    compFreeList (l₁ ++ l₂) = (compFreeList l₁ && compFreeList l₂) := by
  induction l₁ with
  | nil => simp [compFreeList]
  | cons c rest ih => simp [compFreeList, ih, Bool.and_assoc]

theorem compFreeList_removeFirst (t : Tag) :
    ∀ l : List XElem, compFreeList l = true → compFreeList (removeFirst t l) = true
  | [], h => h
  | c :: rest, h => by
    simp only [compFreeList, Bool.and_eq_true] at h
    by_cases hc : c.tag = t
    · rw [removeFirst, if_pos hc]
      exact h.2
    · rw [removeFirst, if_neg hc]
      simp only [compFreeList, Bool.and_eq_true]
      exact ⟨h.1, compFreeList_removeFirst t rest h.2⟩

theorem portLabel_ne_optOC : vifPortLabel ≠ optOptionalContent := by decide

theorem comment_ne_optOC : Tag.comment ≠ optOptionalContent := by decide

theorem comment_ne_portLabel : Tag.comment ≠ vifPortLabel := by decide

theorem comment_compFree : compFree (mkComment "Non-USB Content") = true := by decide

/-! Branch computations of `portStep` under successful lookups. -/

theorem portStep_case1 (idx : PortIndex) (port existing pn s : XElem)
    (hoc : findChild optOptionalContent port = some existing)
    (hpl : findChild vifPortLabel port = some pn)
    (hE : existing.children.isEmpty = false)
    (hs : idx pn.text = some (some s)) :
    portStep idx port =
      .ok (if contains_contents existing s then (false, []) else (true, [s])) := by
  by_cases hcc : contains_contents existing s = true <;>
    simp [portStep, hoc, hpl, lookupKey, hs, hE, hcc]

theorem portStep_case2 (idx : PortIndex) (port pn s : XElem)
    (hoc : findChild optOptionalContent port = none)
    (hpl : findChild vifPortLabel port = some pn)
    (hs : idx pn.text = some (some s)) :
    portStep idx port = .ok (false, [mkComment "Non-USB Content", s]) := by
  simp [portStep, hoc, hpl, lookupKey, hs]

theorem portStep_case3 (idx : PortIndex) (port s : XElem)
    (hoc : findChild optOptionalContent port = none)
    (hpl : findChild vifPortLabel port = none)
    (hs : idx (some "NA") = some (some s)) :
    portStep idx port = .ok (false, [mkComment "Non-USB Content", s]) := by
  simp [portStep, hoc, hpl, lookupKey, hs]

theorem portStep_case4 (idx : PortIndex) (port existing s : XElem)
    (hoc : findChild optOptionalContent port = some existing)
    (hpl : findChild vifPortLabel port = none)
    (hs : idx (some "NA") = some (some s)) :
    portStep idx port =
      .ok (if elements_equal existing s then (false, []) else (true, [s])) := by
  by_cases heq : elements_equal existing s = true <;>
    simp [portStep, hoc, hpl, lookupKey, hs, heq]

theorem mkComment_tag (s : String) : (mkComment s).tag = Tag.comment := rfl

theorem mergeEl_comp_eq_keep (idx : PortIndex) (a : List (String × String))
    (tx tl : Option String) (cs cs' : List XElem) (i : Nat) (ap : List XElem)
    (hps : portStep idx (.mk vifComponent a tx tl cs i) = .ok (false, ap))
    (hml : mergeList idx cs = .ok cs') :
    mergeEl idx (.mk vifComponent a tx tl cs i) =
      .ok (.mk vifComponent a tx tl (cs' ++ ap) i) := by
  simp [mergeEl, hps, hml]

theorem mergeEl_comp_eq_rm (idx : PortIndex) (a : List (String × String))
    (tx tl : Option String) (cs cs' : List XElem) (i : Nat) (ap : List XElem)
    (hps : portStep idx (.mk vifComponent a tx tl cs i) = .ok (true, ap))
    (hml : mergeList idx cs = .ok cs') :
    mergeEl idx (.mk vifComponent a tx tl cs i) =
      .ok (.mk vifComponent a tx tl (removeFirst optOptionalContent cs' ++ ap) i) := by
  simp [mergeEl, hps, hml]

/-- The second pass is a no-op on a component with component-free children
whose settings lookup is well-behaved.  This is the heart of the
idempotence argument, case-split over the four decision-table rows. -/
theorem mergeEl_good_comp (idx : PortIndex) (a : List (String × String))
    (tx tl : Option String) (cs : List XElem) (i : Nat)
    (hgp : goodPort idx (.mk vifComponent a tx tl cs i) = true) :
    ∃ e1, mergeEl idx (.mk vifComponent a tx tl cs i) = .ok e1 ∧ mergeEl idx e1 = .ok e1 := by
  simp only [goodPort, Bool.and_eq_true, XElem.children_mk, decide_eq_true_eq] at hgp
  obtain ⟨⟨⟨hcf, hcnt⟩, hne⟩, hidxm⟩ := hgp
  have hmlcs : mergeList idx cs = .ok cs := mergeList_compFree idx cs hcf
  have hnoTag : ∀ c ∈ removeFirst optOptionalContent cs, c.tag ≠ optOptionalContent :=
    removeFirst_noTag _ cs hcnt
  have hleftnone :
      (removeFirst optOptionalContent cs).find? (fun c => c.tag = optOptionalContent) = none :=
    (findTag_eq_none_iff _ _).mpr hnoTag
  have hcfrm : compFreeList (removeFirst optOptionalContent cs) = true :=
    compFreeList_removeFirst _ cs hcf
  cases hpl : findChild vifPortLabel (XElem.mk vifComponent a tx tl cs i) with
  | some pn =>
    have hpl' : cs.find? (fun c => c.tag = vifPortLabel) = some pn := by
      simpa only [findChild, XElem.children_mk] using hpl
    have hkey : portKey (XElem.mk vifComponent a tx tl cs i) = pn.text := by
      unfold portKey
      rw [hpl]
    rw [hkey] at hidxm
    cases hS : idx pn.text with
    | none =>
      simp only [hS] at hidxm
      exact Bool.noConfusion hidxm
    | some v =>
      cases v with
      | none =>
        simp only [hS] at hidxm
        exact Bool.noConfusion hidxm
      | some S =>
        simp only [hS, hpl, Bool.and_eq_true, beq_iff_eq, Option.isSome_some, Bool.not_true,
          Bool.false_or, Bool.not_eq_true'] at hidxm
        obtain ⟨⟨hStag, hScf⟩, hSemp⟩ := hidxm
        have hml1 : mergeList idx (removeFirst optOptionalContent cs ++ [S]) =
            .ok (removeFirst optOptionalContent cs ++ [S]) := by
          refine mergeList_compFree idx _ ?_
          rw [compFreeList_append]
          simp [hcfrm, compFreeList, hScf]
        cases hoc : findChild optOptionalContent (XElem.mk vifComponent a tx tl cs i) with
        | some E =>
          -- decision-table row 1: label and (truthy) existing content
          simp only [hpl, hoc] at hne
          rw [Bool.not_eq_true'] at hne
          have hps := portStep_case1 idx _ E pn S hoc hpl hne hS
          by_cases hcc : contains_contents E S = true
          · rw [if_pos hcc] at hps
            have hm := mergeEl_comp_eq_keep idx a tx tl cs cs i [] hps hmlcs
            rw [List.append_nil] at hm
            exact ⟨_, hm, hm⟩
          · rw [if_neg hcc] at hps
            have hm1 := mergeEl_comp_eq_rm idx a tx tl cs cs i [S] hps hmlcs
            refine ⟨_, hm1, ?_⟩
            have hf_pl1 : findChild vifPortLabel
                (XElem.mk vifComponent a tx tl (removeFirst optOptionalContent cs ++ [S]) i) =
                  some pn := by
              simp only [findChild, XElem.children_mk, List.find?_append,
                findTag_removeFirst portLabel_ne_optOC, hpl', Option.or_some]
            have hf_oc1 : findChild optOptionalContent
                (XElem.mk vifComponent a tx tl (removeFirst optOptionalContent cs ++ [S]) i) =
                  some S := by
              simp only [findChild, XElem.children_mk, List.find?_append, hleftnone,
                Option.none_or]
              rw [List.find?_cons_of_pos _ (by simp [hStag])]
            have hps2 := portStep_case1 idx _ S pn S hf_oc1 hf_pl1 hSemp hS
            by_cases hcc2 : contains_contents S S = true
            · rw [if_pos hcc2] at hps2
              have hm2 := mergeEl_comp_eq_keep idx a tx tl
                (removeFirst optOptionalContent cs ++ [S]) _ i [] hps2 hml1
              rw [List.append_nil] at hm2
              exact hm2
            · rw [if_neg hcc2] at hps2
              have hm2 := mergeEl_comp_eq_rm idx a tx tl
                (removeFirst optOptionalContent cs ++ [S]) _ i [S] hps2 hml1
              rw [removeFirst_append_of_noTag _ _ _ hnoTag,
                show removeFirst optOptionalContent [S] = [] from by
                  simp [removeFirst, hStag],
                List.append_nil] at hm2
              exact hm2
        | none =>
          -- decision-table row 2: label, no existing content
          have hoc' : cs.find? (fun c => c.tag = optOptionalContent) = none := by
            simpa only [findChild, XElem.children_mk] using hoc
          have hnoTagCs : ∀ c ∈ cs, c.tag ≠ optOptionalContent :=
            (findTag_eq_none_iff _ _).mp hoc'
          have hps := portStep_case2 idx _ pn S hoc hpl hS
          have hm1 := mergeEl_comp_eq_keep idx a tx tl cs cs i
            [mkComment "Non-USB Content", S] hps hmlcs
          refine ⟨_, hm1, ?_⟩
          have hml2 : mergeList idx (cs ++ [mkComment "Non-USB Content", S]) =
              .ok (cs ++ [mkComment "Non-USB Content", S]) := by
            refine mergeList_compFree idx _ ?_
            rw [compFreeList_append]
            simp [hcf, compFreeList, comment_compFree, hScf]
          have hf_pl1 : findChild vifPortLabel
              (XElem.mk vifComponent a tx tl (cs ++ [mkComment "Non-USB Content", S]) i) =
                some pn := by
            simp only [findChild, XElem.children_mk, List.find?_append, hpl', Option.or_some]
          have hf_oc1 : findChild optOptionalContent
              (XElem.mk vifComponent a tx tl (cs ++ [mkComment "Non-USB Content", S]) i) =
                some S := by
            simp only [findChild, XElem.children_mk, List.find?_append, hoc', Option.none_or]
            rw [List.find?_cons_of_neg _
                (by simp only [decide_eq_true_eq, mkComment_tag]; exact comment_ne_optOC),
              List.find?_cons_of_pos _ (by simp [hStag])]
          have hps2 := portStep_case1 idx _ S pn S hf_oc1 hf_pl1 hSemp hS
          by_cases hcc2 : contains_contents S S = true
          · rw [if_pos hcc2] at hps2
            have hm2 := mergeEl_comp_eq_keep idx a tx tl
              (cs ++ [mkComment "Non-USB Content", S]) _ i [] hps2 hml2
            rw [List.append_nil] at hm2
            exact hm2
          · rw [if_neg hcc2] at hps2
            have hm2 := mergeEl_comp_eq_rm idx a tx tl
              (cs ++ [mkComment "Non-USB Content", S]) _ i [S] hps2 hml2
            rw [removeFirst_append_of_noTag _ _ _ hnoTagCs,
              show removeFirst optOptionalContent [mkComment "Non-USB Content", S] =
                  [mkComment "Non-USB Content"] from by
                simp [removeFirst, mkComment_tag, comment_ne_optOC, hStag],
              List.append_assoc] at hm2
            exact hm2
  | none =>
    have hpl' : cs.find? (fun c => c.tag = vifPortLabel) = none := by
      simpa only [findChild, XElem.children_mk] using hpl
    have hkey : portKey (XElem.mk vifComponent a tx tl cs i) = some "NA" := by
      unfold portKey
      rw [hpl]
    rw [hkey] at hidxm
    cases hS : idx (some "NA") with
    | none =>
      simp only [hS] at hidxm
      exact Bool.noConfusion hidxm
    | some v =>
      cases v with
      | none =>
        simp only [hS] at hidxm
        exact Bool.noConfusion hidxm
      | some S =>
        simp only [hS, hpl, Bool.and_eq_true, beq_iff_eq, Option.isSome_none, Bool.not_false,
          Bool.true_or, Bool.and_true] at hidxm
        obtain ⟨hStag, hScf⟩ := hidxm
        have hml1 : mergeList idx (removeFirst optOptionalContent cs ++ [S]) =
            .ok (removeFirst optOptionalContent cs ++ [S]) := by
          refine mergeList_compFree idx _ ?_
          rw [compFreeList_append]
          simp [hcfrm, compFreeList, hScf]
        cases hoc : findChild optOptionalContent (XElem.mk vifComponent a tx tl cs i) with
        | some E =>
          -- decision-table row 4: no label, existing content
          have hps := portStep_case4 idx _ E S hoc hpl hS
          by_cases heq : elements_equal E S = true
          · rw [if_pos heq] at hps
            have hm := mergeEl_comp_eq_keep idx a tx tl cs cs i [] hps hmlcs
            rw [List.append_nil] at hm
            exact ⟨_, hm, hm⟩
          · rw [if_neg heq] at hps
            have hm1 := mergeEl_comp_eq_rm idx a tx tl cs cs i [S] hps hmlcs
            refine ⟨_, hm1, ?_⟩
            have hf_pl1 : findChild vifPortLabel
                (XElem.mk vifComponent a tx tl (removeFirst optOptionalContent cs ++ [S]) i) =
                  none := by
              simp only [findChild, XElem.children_mk, List.find?_append,
                findTag_removeFirst portLabel_ne_optOC, hpl', Option.none_or]
              rw [List.find?_cons_of_neg _
                (by
                  simp only [decide_eq_true_eq]
                  exact fun h => portLabel_ne_optOC (h.symm.trans hStag))]
              rfl
            have hf_oc1 : findChild optOptionalContent
                (XElem.mk vifComponent a tx tl (removeFirst optOptionalContent cs ++ [S]) i) =
                  some S := by
              simp only [findChild, XElem.children_mk, List.find?_append, hleftnone,
                Option.none_or]
              rw [List.find?_cons_of_pos _ (by simp [hStag])]
            have hps2 := portStep_case4 idx _ S S hf_oc1 hf_pl1 hS
            rw [if_pos (elements_equal_refl S)] at hps2
            have hm2 := mergeEl_comp_eq_keep idx a tx tl
              (removeFirst optOptionalContent cs ++ [S]) _ i [] hps2 hml1
            rw [List.append_nil] at hm2
            exact hm2
        | none =>
          -- decision-table row 3: no label, no existing content
          have hoc' : cs.find? (fun c => c.tag = optOptionalContent) = none := by
            simpa only [findChild, XElem.children_mk] using hoc
          have hps := portStep_case3 idx _ S hoc hpl hS
          have hm1 := mergeEl_comp_eq_keep idx a tx tl cs cs i
            [mkComment "Non-USB Content", S] hps hmlcs
          refine ⟨_, hm1, ?_⟩
          have hml2 : mergeList idx (cs ++ [mkComment "Non-USB Content", S]) =
              .ok (cs ++ [mkComment "Non-USB Content", S]) := by
            refine mergeList_compFree idx _ ?_
            rw [compFreeList_append]
            simp [hcf, compFreeList, comment_compFree, hScf]
          have hf_pl1 : findChild vifPortLabel
              (XElem.mk vifComponent a tx tl (cs ++ [mkComment "Non-USB Content", S]) i) =
                none := by
            simp only [findChild, XElem.children_mk, List.find?_append, hpl', Option.none_or]
            rw [List.find?_cons_of_neg _
                (by simp only [decide_eq_true_eq, mkComment_tag]; exact comment_ne_portLabel),
              List.find?_cons_of_neg _
                (by
                  simp only [decide_eq_true_eq]
                  exact fun h => portLabel_ne_optOC (h.symm.trans hStag))]
            rfl
          have hf_oc1 : findChild optOptionalContent
              (XElem.mk vifComponent a tx tl (cs ++ [mkComment "Non-USB Content", S]) i) =
                some S := by
            simp only [findChild, XElem.children_mk, List.find?_append, hoc', Option.none_or]
            rw [List.find?_cons_of_neg _
                (by simp only [decide_eq_true_eq, mkComment_tag]; exact comment_ne_optOC),
              List.find?_cons_of_pos _ (by simp [hStag])]
          have hps2 := portStep_case4 idx _ S S hf_oc1 hf_pl1 hS
          rw [if_pos (elements_equal_refl S)] at hps2
          have hm2 := mergeEl_comp_eq_keep idx a tx tl
            (cs ++ [mkComment "Non-USB Content", S]) _ i [] hps2 hml2
          rw [List.append_nil] at hm2
          exact hm2

mutual
theorem mergeEl_good (idx : PortIndex) :
    ∀ e : XElem, goodT idx e = true →
      ∃ e1, mergeEl idx e = .ok e1 ∧ mergeEl idx e1 = .ok e1
  | .mk t a tx tl cs i, hg => by
    simp only [goodT, Bool.and_eq_true] at hg
    obtain ⟨hgp, hgl⟩ := hg
    by_cases ht : t = vifComponent
    · subst ht
      rw [if_pos rfl] at hgp
      exact mergeEl_good_comp idx a tx tl cs i hgp
    · obtain ⟨cs1, h1, h2⟩ := mergeList_good idx cs hgl
      refine ⟨.mk t a tx tl cs1 i, ?_, ?_⟩
      · simp [mergeEl, ht, h1]
      · simp [mergeEl, ht, h2]

theorem mergeList_good (idx : PortIndex) :
    ∀ l : List XElem, goodList idx l = true →
      ∃ l1, mergeList idx l = .ok l1 ∧ mergeList idx l1 = .ok l1
  | [], _ => ⟨[], rfl, rfl⟩
  | c :: cs, hg => by
    simp only [goodList, Bool.and_eq_true] at hg
    obtain ⟨c1, hc1, hc2⟩ := mergeEl_good idx c hg.1
    obtain ⟨cs1, hl1, hl2⟩ := mergeList_good idx cs hg.2
    refine ⟨c1 :: cs1, ?_, ?_⟩
    · simp [mergeList, hc1, hl1]
    · simp [mergeList, hc2, hl2]
end

/-- C3 (amended): on a VIF tree whose components satisfy the side
conditions of `goodPort` under the index built from the settings —
components are not nested inside one another, each port has at most one
direct `opt:OptionalContent` child, a labeled port's existing content is
non-empty, and every port's lookup yields a component-free
`opt:OptionalContent` element that is non-empty for labeled ports — the
first merge succeeds and running the merge a second time with the same
settings reproduces the first result exactly.  (The second pass is *not*
all leave-unchanged branches: on labeled ports it removes and re-appends
the very content it finds, which is position-invariant because that content
sits last.) -/
theorem generate_dpam_vif_idempotent (input_vif dpam_settings : XElem)
    (hg : goodList (get_port_settings_from_vif dpam_settings) input_vif.children = true) :
    ∃ t1, generate_dpam_vif input_vif dpam_settings = .ok t1 ∧
      generate_dpam_vif t1 dpam_settings = .ok t1 := by
  cases input_vif with
  | mk t a tx tl cs i =>
    simp only [XElem.children_mk] at hg
    obtain ⟨cs1, h1, h2⟩ := mergeList_good _ cs hg
    exact ⟨.mk t a tx tl cs1 i,
      by simp [generate_dpam_vif, mergeRoot, h1],
      by simp [generate_dpam_vif, mergeRoot, h2]⟩

/-- Witness for C3 (amended) at the concrete documents `vRoot`/`sRoot`. -/
theorem generate_dpam_vif_idempotent_wit :
    ∃ t1, generate_dpam_vif vRoot sRoot = .ok t1 ∧ generate_dpam_vif t1 sRoot = .ok t1 :=
  generate_dpam_vif_idempotent vRoot sRoot (by decide)

/-- C3 counterexample: with the settings document `sRootE`, whose `"P1"`
content block is childless — hence Python-falsy — the first merge appends
comment and content, and the *second* merge run, rather than detecting the
already-merged content, appends them again: the tree after the second merge
differs from the tree after the first. -/
theorem merge_twice_differs :
    (generate_dpam_vif vRoot sRootE).bind (fun t1 => generate_dpam_vif t1 sRootE) ≠
      generate_dpam_vif vRoot sRootE := by decide

end DPAMVIF
